import Mathlib

/-!
Verification development for the Starlark macro writer of package `writer`
(`writer/starlark.go`).  The Go code is shallowly embedded: the mutable
`StarlarkWriter` struct becomes a Lean structure, each method becomes a pure
function returning the updated state together with its result, the buffered
output sink (`bufio.Writer`) is modelled as the append-only list of chunks
passed to `WriteString` (the model sink never fails; `Flush` is the identity),
and `[]byte` values are modelled as `List Char`.
-/

deriving instance DecidableEq for Except

namespace Writer

/-! ## Go standard-library behaviour used by the source

`fmt.Sprintf("%#v", s)` on a string produces the Go-syntax quoted form of `s`
(the behaviour of `strconv.Quote`).  We model the escaping rules for ASCII
exactly; printable non-ASCII runes are emitted verbatim as `strconv.Quote`
does, and the rare non-printable non-ASCII runes (which `strconv.Quote` would
escape with a unicode escape) are approximated as verbatim -- no claim
depends on those code points. -/

def hexDigits (n : Nat) : List Char :=
  [Nat.digitChar (n / 16 % 16), Nat.digitChar (n % 16)]

def goEscapeChar (c : Char) : List Char :=
  if c = '"' then ['\\', '"']
  else if c = '\\' then ['\\', '\\']
  else if c = '\x07' then ['\\', 'a']
  else if c = '\x08' then ['\\', 'b']
  else if c = '\x0c' then ['\\', 'f']
  else if c = '\n' then ['\\', 'n']
  else if c = '\r' then ['\\', 'r']
  else if c = '\t' then ['\\', 't']
  else if c = '\x0b' then ['\\', 'v']
  else if c.toNat < 0x20 ∨ c.toNat = 0x7f then '\\' :: 'x' :: hexDigits c.toNat
  else [c]

def goQuote (s : String) : String :=
  String.mk ('"' :: (s.data.map goEscapeChar).flatten ++ ['"'])

/-! ## Identifier handling (source lines 29-39, 179-187)

`validIdentPattern` is the matching function of the anchored Go regular
expression `[a-zA-Z_]\w*` (RE2 `\w` is ASCII `[0-9A-Za-z_]`; `Char.isAlpha`
and `Char.isDigit` in Lean are the corresponding ASCII classes). -/

def validIdentPattern (s : String) : Bool :=
  match s.data with
  | [] => false
  | c :: cs => (c.isAlpha || c = '_') && cs.all (fun d => d.isAlphanum || d = '_')

def starlarkReserved : List String :=
  ["if", "elif", "else", "assert",
   "and", "or", "not", "in", "is", "as",
   "for", "while", "break", "continue", "return", "yield", "pass",
   "load", "import", "nonlocal", "global",
   "def", "lambda", "class",
   "del", "raise", "except", "try", "finally", "from", "with"]

def identName (ident : String) : Except String String :=
  if !validIdentPattern ident then
    Except.error ("invalid Starlark identifier: " ++ ident)
  else if starlarkReserved.contains ident then
    Except.ok (ident ++ "_")
  else
    Except.ok ident

/-! ## The Literal Encoder boundary

Modelled from the spec: the function `Marshal` of package `writer` is not
among the given source files (only its caller `WriteCommand` and the
specialization `ArgumentLiterals.MarshalStarlark` are).  Per the spec it
converts one value into a Starlark literal byte sequence, honours a value
level capability (a method returning the bytes and an error) when present,
and falls back to built-in encodings for strings and ordered sequences.
`StarlarkValue` enumerates the argument shapes the claims need: a plain
string, a plain list of strings, the `ArgumentLiterals` named type from the
source, and a value exposing the custom-encoding capability with an arbitrary
result (used to exercise encoder failures). -/

inductive StarlarkValue where
  | str (s : String)
  | strList (l : List String)
  | argumentLiterals (l : List String)
  | custom (result : Except String (List Char))
  deriving Repr

/-- Modelled from the spec: the built-in encoding of a string value is its
quoted Starlark string literal. -/
def MarshalString (s : String) : List Char :=
  (goQuote s).data

/-- Modelled from the spec: the built-in ("default sequence") encoding of a
list of strings is the bracketed, comma separated sequence of the element
encodings. -/
def MarshalStringList (l : List String) : List Char :=
  '[' :: List.intercalate [',', ' '] (l.map MarshalString) ++ [']']

/-- `ArgumentLiterals.MarshalStarlark` (source lines 166-172): encode the
underlying plain string list with `Marshal` -- which, on a plain string list,
yields the default sequence encoding, always successfully in the model -- and
return `b[1:len(b)-1]`, the encoding with the first and the last byte
removed.  Both removed bytes are the single-byte bracket characters, so byte
slicing coincides with `List.drop 1` plus `List.dropLast` on the char list. -/
def ArgumentLiterals.MarshalStarlark (al : List String) : Except String (List Char) :=
  match (Except.ok (MarshalStringList al) : Except String (List Char)) with
  | Except.error e => Except.error e
  | Except.ok b => Except.ok ((b.drop 1).dropLast)

/-- Modelled from the spec: `Marshal` honours the custom-encoding capability
when the value exposes one (`argumentLiterals`, `custom`) and falls back to
the built-in encodings otherwise. -/
def Marshal : StarlarkValue → Except String (List Char)
  | StarlarkValue.str s => Except.ok (MarshalString s)
  | StarlarkValue.strList l => Except.ok (MarshalStringList l)
  | StarlarkValue.argumentLiterals l => ArgumentLiterals.MarshalStarlark l
  | StarlarkValue.custom r => r

/-- Encode a list of values in order, stopping at the first encoder error. -/
def marshalAll : List StarlarkValue → Except String (List (List Char))
  | [] => Except.ok []
  | a :: rest => do
    let v ← Marshal a
    let vs ← marshalAll rest
    pure (v :: vs)

/-! ## The writer state (source lines 42-52) -/

structure StarlarkWriter where
  /-- The chunks handed to `sw.w.WriteString`, in order (the output stream). -/
  out : List String
  /-- `sw.buf`: pending statements not yet committed to the output stream. -/
  buf : List String
  /-- `sw.currentMacro`: empty when idle. -/
  currentMacro : String
  /-- `sw.dirStack`: open directory contexts, top at the end (Go `append`). -/
  dirStack : List String
  deriving DecidableEq, Repr

def NewStarlarkWriter : StarlarkWriter :=
  { out := [], buf := [], currentMacro := "", dirStack := [] }

def writeString (sw : StarlarkWriter) (s : String) : StarlarkWriter :=
  { sw with out := sw.out ++ [s] }

def writeBuffered (sw : StarlarkWriter) : StarlarkWriter :=
  { sw with out := sw.out ++ sw.buf, buf := [] }

/-- `sw.indentf`: `fmt.Sprintf` with the format prefixed by four spaces; all
call sites pass fully rendered text, so the model prepends the prefix. -/
def indentf (s : String) : String :=
  "    " ++ s

def headerString (name : String) : String :=
  "def " ++ name ++ "(ctx):\n"

def pushDirString (path : String) : String :=
  indentf ("ctx = ctx.push_directory(ctx, " ++ goQuote path ++ ")\n")

def popDirStatement : String :=
  indentf "ctx = ctx.pop_directory(ctx)\n"

/-- `BeginMacro` (source lines 55-66). -/
def BeginMacro (sw : StarlarkWriter) (name : String) :
    StarlarkWriter × Except String Unit :=
  if sw.currentMacro ≠ "" then
    (sw, Except.error "nested macros are not allowed")
  else
    match identName name with
    | Except.error e => (sw, Except.error e)
    | Except.ok n =>
      ({ sw with buf := sw.buf ++ [headerString n], currentMacro := n },
       Except.ok ())

/-- `EndMacro` (source lines 69-82); `sw.w.Flush` always succeeds in the
model. -/
def EndMacro (sw : StarlarkWriter) : StarlarkWriter × Except String Unit :=
  if sw.currentMacro = "" then
    (sw, Except.error "no current macro")
  else
    let sw1 := writeBuffered sw
    let sw2 := writeString sw1 (indentf "return ctx\n")
    ({ sw2 with currentMacro := "" }, Except.ok ())

/-- `PushDirectory` (source lines 85-92). -/
def PushDirectory (sw : StarlarkWriter) (path : String) :
    StarlarkWriter × Except String Unit :=
  if sw.currentMacro = "" then
    (sw, Except.error "no current macro")
  else
    ({ sw with dirStack := sw.dirStack ++ [path],
               buf := sw.buf ++ [pushDirString path] },
     Except.ok ())

/-- `PopDirectory` (source lines 99-113).  The Go guard
`len(sw.buf) > 0 && sw.buf[len(sw.buf)-1] == sw.pushDirString(path)` is
exactly `sw.buf.getLast? = some (pushDirString path)`. -/
def PopDirectory (sw : StarlarkWriter) : StarlarkWriter × Except String String :=
  if sw.currentMacro = "" then
    (sw, Except.error "no current macro")
  else
    match sw.dirStack.getLast? with
    | none => (sw, Except.error "no current directory")
    | some path =>
      let sw1 := { sw with dirStack := sw.dirStack.dropLast }
      if sw1.buf.getLast? = some (pushDirString path) then
        ({ sw1 with buf := sw1.buf.dropLast }, Except.ok path)
      else
        (writeString sw1 popDirStatement, Except.ok path)

def cmdStart (c : String) : String :=
  indentf ("ctx." ++ c ++ "(ctx")

/-- The argument loop of `WriteCommand` (source lines 130-138). -/
def writeArgs (sw : StarlarkWriter) : List StarlarkValue →
    StarlarkWriter × Except String Unit
  | [] => (sw, Except.ok ())
  | a :: rest =>
    match Marshal a with
    | Except.error e => (sw, Except.error e)
    | Except.ok val => writeArgs (writeString sw (", " ++ String.mk val)) rest

/-- `WriteCommand` (source lines 116-140). -/
def WriteCommand (sw : StarlarkWriter) (cmd : String) (args : List StarlarkValue) :
    StarlarkWriter × Except String Unit :=
  if sw.currentMacro = "" then
    (sw, Except.error "no current macro")
  else
    match identName cmd with
    | Except.error e => (sw, Except.error e)
    | Except.ok c =>
      let sw1 := writeBuffered sw
      let sw2 := writeString sw1 (cmdStart c)
      match writeArgs sw2 args with
      | (sw3, Except.error e) => (sw3, Except.error e)
      | (sw3, Except.ok _) => (writeString sw3 ")\n", Except.ok ())

/-! ## Call traces -/

inductive Op where
  | beginMacro (name : String)
  | endMacro
  | pushDirectory (path : String)
  | popDirectory
  | writeCommand (cmd : String) (args : List StarlarkValue)
  deriving Repr

/-- The state after one call; Go methods mutate the receiver and additionally
return an error, so the post-state is the first component of each model
operation whether or not the call failed. -/
def step (sw : StarlarkWriter) : Op → StarlarkWriter
  | Op.beginMacro n => (BeginMacro sw n).1
  | Op.endMacro => (EndMacro sw).1
  | Op.pushDirectory p => (PushDirectory sw p).1
  | Op.popDirectory => (PopDirectory sw).1
  | Op.writeCommand c args => (WriteCommand sw c args).1

def run (sw : StarlarkWriter) (ops : List Op) : StarlarkWriter :=
  ops.foldl step sw

def hasCmd : List Op → Bool
  | [] => false
  | Op.writeCommand _ _ :: _ => true
  | _ :: rest => hasCmd rest

/-! ## Basic lemmas about the embedded operations -/

theorem identName_ok_ne_empty {i n : String} (h : identName i = Except.ok n) :
    n ≠ "" := by
  unfold identName at h
  by_cases hv : validIdentPattern i
  · simp only [hv, Bool.not_true, Bool.false_eq_true, if_false] at h
    by_cases hr : starlarkReserved.contains i
    · simp only [hr, if_true, Except.ok.injEq] at h
      subst h
      intro hc
      have := congrArg String.length hc
      simp [String.length_append] at this
      exact absurd this.2 (by decide)
    · simp only [hr, Bool.false_eq_true, if_false, Except.ok.injEq] at h
      subst h
      intro hc
      subst hc
      exact absurd hv (by decide)
  · simp [hv] at h

theorem headerString_ne_pushDirString (m p : String) :
    headerString m ≠ pushDirString p := by
  intro h
  have h2 := congrArg (fun s => s.data.head?) h
  have h3 : (some 'd' : Option Char) = some ' ' := h2
  exact absurd (Option.some.inj h3) (by decide)

theorem run_cons (sw : StarlarkWriter) (op : Op) (ops : List Op) :
    run sw (op :: ops) = run (step sw op) ops := rfl

theorem run_append (sw : StarlarkWriter) (a b : List Op) :
    run sw (a ++ b) = run (run sw a) b :=
  List.foldl_append _ _ _ _

theorem step_pushDirectory (sw : StarlarkWriter) (p : String)
    (hm : sw.currentMacro ≠ "") :
    step sw (Op.pushDirectory p) =
      { sw with dirStack := sw.dirStack ++ [p],
                buf := sw.buf ++ [pushDirString p] } := by
  simp [step, PushDirectory, hm]

theorem popDirectory_elide_eq (sw : StarlarkWriter) (l : List String) (p : String)
    (hm : sw.currentMacro ≠ "") (hd : sw.dirStack = l ++ [p])
    (hb : sw.buf.getLast? = some (pushDirString p)) :
    PopDirectory sw =
      ({ sw with dirStack := l, buf := sw.buf.dropLast }, Except.ok p) := by
  rw [PopDirectory, if_neg hm, hd, List.getLast?_concat]
  dsimp only
  rw [List.dropLast_concat, if_pos hb]

theorem popDirectory_noelide_eq (sw : StarlarkWriter) (l : List String) (p : String)
    (hm : sw.currentMacro ≠ "") (hd : sw.dirStack = l ++ [p])
    (hb : ¬ sw.buf.getLast? = some (pushDirString p)) :
    PopDirectory sw =
      ({ sw with dirStack := l, out := sw.out ++ [popDirStatement] },
       Except.ok p) := by
  rw [PopDirectory, if_neg hm, hd, List.getLast?_concat]
  dsimp only
  rw [List.dropLast_concat, if_neg hb]
  rfl

theorem step_popDirectory_elide (sw : StarlarkWriter) (l : List String) (p : String)
    (hm : sw.currentMacro ≠ "") (hd : sw.dirStack = l ++ [p])
    (hb : sw.buf.getLast? = some (pushDirString p)) :
    step sw Op.popDirectory = { sw with dirStack := l, buf := sw.buf.dropLast } := by
  rw [step, popDirectory_elide_eq sw l p hm hd hb]

theorem step_popDirectory_noelide (sw : StarlarkWriter) (l : List String) (p : String)
    (hm : sw.currentMacro ≠ "") (hd : sw.dirStack = l ++ [p])
    (hb : ¬ sw.buf.getLast? = some (pushDirString p)) :
    step sw Op.popDirectory =
      { sw with dirStack := l, out := sw.out ++ [popDirStatement] } := by
  rw [step, popDirectory_noelide_eq sw l p hm hd hb]

/-- The chunks `WriteCommand` hands to the sink for one successful command. -/
def cmdChunks (c0 : String) (vs : List (List Char)) : List String :=
  cmdStart c0 :: (vs.map (fun v => ", " ++ String.mk v) ++ [")\n"])

theorem writeArgs_ok (args : List StarlarkValue) :
    ∀ (sw : StarlarkWriter) (vs : List (List Char)),
      marshalAll args = Except.ok vs →
      writeArgs sw args =
        ({ sw with out := sw.out ++ vs.map (fun v => ", " ++ String.mk v) },
         Except.ok ()) := by
  induction args with
  | nil =>
    intro sw vs h
    simp only [marshalAll, Except.ok.injEq] at h
    subst h
    simp [writeArgs]
  | cons a rest ih =>
    intro sw vs h
    simp only [marshalAll, bind, Except.bind] at h
    cases ha : Marshal a with
    | error e => rw [ha] at h; exact absurd h (by simp)
    | ok v =>
      rw [ha] at h
      cases hr : marshalAll rest with
      | error e => rw [hr] at h; exact absurd h (by simp)
      | ok vs1 =>
        rw [hr] at h
        simp only [pure, Except.pure, Except.ok.injEq] at h
        subst h
        simp only [writeArgs, ha]
        rw [ih _ vs1 hr]
        simp [writeString, List.append_assoc]

theorem writeArgs_error (pre : List StarlarkValue) :
    ∀ (sw : StarlarkWriter) (vs : List (List Char)) (bad : StarlarkValue)
      (rest : List StarlarkValue) (e : String),
      marshalAll pre = Except.ok vs → Marshal bad = Except.error e →
      writeArgs sw (pre ++ bad :: rest) =
        ({ sw with out := sw.out ++ vs.map (fun v => ", " ++ String.mk v) },
         Except.error e) := by
  induction pre with
  | nil =>
    intro sw vs bad rest e h hbad
    simp only [marshalAll, Except.ok.injEq] at h
    subst h
    simp [writeArgs, hbad]
  | cons a pre1 ih =>
    intro sw vs bad rest e h hbad
    simp only [marshalAll, bind, Except.bind] at h
    cases ha : Marshal a with
    | error e1 => rw [ha] at h; exact absurd h (by simp)
    | ok v =>
      rw [ha] at h
      cases hr : marshalAll pre1 with
      | error e1 => rw [hr] at h; exact absurd h (by simp)
      | ok vs1 =>
        rw [hr] at h
        simp only [pure, Except.pure, Except.ok.injEq] at h
        subst h
        simp only [List.cons_append, writeArgs, ha, List.append_eq]
        rw [ih _ vs1 bad rest e hr hbad]
        simp [writeString, List.append_assoc]

theorem step_writeCommand_ok (sw : StarlarkWriter) (c c0 : String)
    (args : List StarlarkValue) (vs : List (List Char))
    (hm : sw.currentMacro ≠ "") (hc : identName c = Except.ok c0)
    (hargs : marshalAll args = Except.ok vs) :
    step sw (Op.writeCommand c args) =
      { sw with buf := [], out := sw.out ++ sw.buf ++ cmdChunks c0 vs } := by
  simp only [step, WriteCommand, hm, if_neg, hc, writeBuffered, writeString]
  rw [writeArgs_ok args _ vs hargs]
  simp [cmdChunks, writeString, List.append_assoc]

theorem writeArgs_fields (args : List StarlarkValue) :
    ∀ sw : StarlarkWriter,
      ((writeArgs sw args).1.buf = sw.buf ∧
       (writeArgs sw args).1.dirStack = sw.dirStack ∧
       (writeArgs sw args).1.currentMacro = sw.currentMacro) := by
  induction args with
  | nil => intro sw; exact ⟨rfl, rfl, rfl⟩
  | cons a rest ih =>
    intro sw
    cases ha : Marshal a with
    | error e => simp [writeArgs, ha]
    | ok v => simpa [writeArgs, ha, writeString] using ih (writeString sw (", " ++ String.mk v))

theorem step_writeCommand_fields (sw : StarlarkWriter) (c c0 : String)
    (args : List StarlarkValue) (hm : sw.currentMacro ≠ "")
    (hc : identName c = Except.ok c0) :
    (step sw (Op.writeCommand c args)).buf = [] ∧
    (step sw (Op.writeCommand c args)).dirStack = sw.dirStack ∧
    (step sw (Op.writeCommand c args)).currentMacro = sw.currentMacro := by
  simp only [step, WriteCommand, hm, if_neg, hc]
  have h1 := writeArgs_fields args (writeString (writeBuffered sw) (cmdStart c0))
  cases hw : writeArgs (writeString (writeBuffered sw) (cmdStart c0)) args with
  | mk sw3 r =>
    rw [hw] at h1
    cases r with
    | error e => simpa [writeBuffered, writeString] using h1
    | ok u => simpa [writeBuffered, writeString] using h1

/-! ## Claims C5 through C10 -/

/-- C6: the identifier sanitizer returns grammar-conforming non-reserved
strings unchanged, appends exactly one trailing underscore to
grammar-conforming reserved strings, and fails with the invalid-identifier
error on everything else. -/
theorem identName_sanitizer_spec (s : String) :
    (validIdentPattern s = true → s ∉ starlarkReserved → identName s = Except.ok s) ∧
    (validIdentPattern s = true → s ∈ starlarkReserved →
      identName s = Except.ok (s ++ "_")) ∧
    (validIdentPattern s = false →
      identName s = Except.error ("invalid Starlark identifier: " ++ s)) := by
  refine ⟨?_, ?_, ?_⟩
  · intro hv hr
    rw [identName, if_neg (by simp [hv]), if_neg (by simpa using hr)]
  · intro hv hr
    have hc : starlarkReserved.contains s = true := by simpa using hr
    rw [identName, if_neg (by simp [hv]), if_pos hc]
  · intro hv
    rw [identName, if_pos (by simp [hv])]

/-- Witness for C6 at the concrete inputs `gen`, `if` and `9x`. -/
theorem identName_sanitizer_spec_witness :
    identName "gen" = Except.ok "gen" ∧
    identName "if" = Except.ok ("if" ++ "_") ∧
    identName "9x" = Except.error ("invalid Starlark identifier: " ++ "9x") :=
  ⟨(identName_sanitizer_spec "gen").1 (by decide) (by decide),
   (identName_sanitizer_spec "if").2.1 (by decide) (by decide),
   (identName_sanitizer_spec "9x").2.2 (by decide)⟩

/-- C7: `BeginMacro("gen"); WriteCommand("cc_library","foo"); EndMacro()` on a
fresh writer emits exactly the header line, the single four-space indented
command statement, and the four-space indented return statement. -/
theorem end_to_end_gen_scenario :
    (run NewStarlarkWriter [Op.beginMacro "gen",
        Op.writeCommand "cc_library" [StarlarkValue.str "foo"], Op.endMacro]).out =
      ["def gen(ctx):\n", "    ctx.cc_library(ctx", ", \"foo\"", ")\n",
       "    return ctx\n"] ∧
    String.join (run NewStarlarkWriter [Op.beginMacro "gen",
        Op.writeCommand "cc_library" [StarlarkValue.str "foo"], Op.endMacro]).out =
      "def gen(ctx):\n    ctx.cc_library(ctx, \"foo\")\n    return ctx\n" := by
  exact ⟨by decide, by decide⟩

/-- C8: a second `BeginMacro` without an intervening `EndMacro` fails with the
nested-macro error and returns the writer state completely unchanged, still
writing under the first (sanitized) macro name. -/
theorem beginMacro_nested_fails (sw sw1 : StarlarkWriter) (n1 n2 : String)
    (hidle : sw.currentMacro = "") (h1 : BeginMacro sw n1 = (sw1, Except.ok ())) :
    BeginMacro sw1 n2 = (sw1, Except.error "nested macros are not allowed") ∧
    identName n1 = Except.ok sw1.currentMacro ∧ sw1.currentMacro ≠ "" := by
  rw [BeginMacro, if_neg (by simp [hidle])] at h1
  cases hn : identName n1 with
  | error e => rw [hn] at h1; exact absurd h1 (by simp)
  | ok n0 =>
    rw [hn] at h1
    have h1a : ({ sw with buf := sw.buf ++ [headerString n0], currentMacro := n0 } : StarlarkWriter) = sw1 := congrArg Prod.fst h1
    have hc : sw1.currentMacro = n0 := by rw [← h1a]
    have hne : sw1.currentMacro ≠ "" := by
      rw [hc]; exact identName_ok_ne_empty hn
    refine ⟨?_, ?_, hne⟩
    · rw [BeginMacro, if_pos hne]
    · rw [hc]

/-- Witness for C8: two `BeginMacro` calls on a fresh writer. -/
theorem beginMacro_nested_fails_witness :
    BeginMacro { out := [], buf := ["def m(ctx):\n"], currentMacro := "m", dirStack := [] } "n" =
      (({ out := [], buf := ["def m(ctx):\n"], currentMacro := "m", dirStack := [] } : StarlarkWriter),
       Except.error "nested macros are not allowed") :=
  (beginMacro_nested_fails NewStarlarkWriter _ "m" "n" rfl rfl).1

/-- C9: `PopDirectory` fails with the no-active-macro error whenever no macro
is open (regardless of the stack), fails with the empty-stack error when a
macro is open but the directory stack is empty, and on success returns the
path popped from the top of the stack. -/
theorem popDirectory_error_and_result_spec (sw : StarlarkWriter) :
    (sw.currentMacro = "" → PopDirectory sw = (sw, Except.error "no current macro")) ∧
    (sw.currentMacro ≠ "" → sw.dirStack = [] →
      PopDirectory sw = (sw, Except.error "no current directory")) ∧
    (∀ (l : List String) (p : String), sw.currentMacro ≠ "" →
      sw.dirStack = l ++ [p] → (PopDirectory sw).2 = Except.ok p) := by
  refine ⟨?_, ?_, ?_⟩
  · intro h
    simp [PopDirectory, h]
  · intro h1 h2
    simp [PopDirectory, h1, h2]
  · intro l p h1 h2
    by_cases hb : sw.buf.getLast? = some (pushDirString p)
    · rw [popDirectory_elide_eq sw l p h1 h2 hb]
    · rw [popDirectory_noelide_eq sw l p h1 h2 hb]

/-- Witness for C9: all three branches at concrete writers. -/
theorem popDirectory_error_and_result_spec_witness :
    PopDirectory NewStarlarkWriter =
      (NewStarlarkWriter, Except.error "no current macro") ∧
    PopDirectory (run NewStarlarkWriter [Op.beginMacro "m"]) =
      (run NewStarlarkWriter [Op.beginMacro "m"], Except.error "no current directory") ∧
    (PopDirectory (run NewStarlarkWriter
        [Op.beginMacro "m", Op.pushDirectory "a"])).2 = Except.ok "a" :=
  ⟨(popDirectory_error_and_result_spec NewStarlarkWriter).1 rfl,
   (popDirectory_error_and_result_spec _).2.1 (by decide) rfl,
   (popDirectory_error_and_result_spec _).2.2 [] "a" (by decide) rfl⟩

/-- C10: on an `ArgumentLiterals` value the custom encoding succeeds whenever
the default sequence encoding of the underlying string list does, and is
exactly that default encoding with its first and last byte removed; those two
bytes are the enclosing bracket characters, and what remains is the bare,
splice-ready comma separated element list. -/
theorem marshalStarlark_strips_brackets (al : List String) :
    Marshal (StarlarkValue.strList al) = Except.ok (MarshalStringList al) ∧
    (MarshalStringList al).head? = some '[' ∧
    (MarshalStringList al).getLast? = some ']' ∧
    ArgumentLiterals.MarshalStarlark al =
      Except.ok (((MarshalStringList al).drop 1).dropLast) ∧
    ((MarshalStringList al).drop 1).dropLast =
      List.intercalate [',', ' '] (al.map MarshalString) := by
  refine ⟨rfl, rfl, ?_, rfl, ?_⟩
  · rw [MarshalStringList]
    show ((('[' : Char) :: List.intercalate [',', ' '] (al.map MarshalString)) ++ [']']).getLast? = some ']'
    exact List.getLast?_concat _
  · rw [MarshalStringList]
    simp [List.dropLast_concat]

/-- C5: `EndMacro` succeeds without validating or popping the directory
stack; it appends only the pending statements and the return statement, and a
directory context left open survives into a subsequently begun macro, where
`PopDirectory` still pops it. -/
theorem endMacro_preserves_dirStack (sw : StarlarkWriter) (n c0 p : String)
    (l : List String) (hm : sw.currentMacro ≠ "") (hn : identName n = Except.ok c0)
    (hd : sw.dirStack = l ++ [p]) :
    (EndMacro sw).2 = Except.ok () ∧
    (EndMacro sw).1.dirStack = sw.dirStack ∧
    (EndMacro sw).1.out = sw.out ++ sw.buf ++ [indentf "return ctx\n"] ∧
    (BeginMacro (EndMacro sw).1 n).2 = Except.ok () ∧
    (BeginMacro (EndMacro sw).1 n).1.dirStack = sw.dirStack ∧
    (PopDirectory (BeginMacro (EndMacro sw).1 n).1).2 = Except.ok p := by
  have he : EndMacro sw =
      ({ out := sw.out ++ sw.buf ++ [indentf "return ctx\n"], buf := [],
         currentMacro := "", dirStack := sw.dirStack }, Except.ok ()) := by
    rw [EndMacro, if_neg hm]
    simp [writeBuffered, writeString, List.append_assoc]
  rw [he]
  have hb : BeginMacro
      ({ out := sw.out ++ sw.buf ++ [indentf "return ctx\n"], buf := [],
         currentMacro := "", dirStack := sw.dirStack } : StarlarkWriter) n =
      ({ out := sw.out ++ sw.buf ++ [indentf "return ctx\n"],
         buf := [headerString c0], currentMacro := c0, dirStack := sw.dirStack },
       Except.ok ()) := by
    rw [BeginMacro, if_neg (by simp), hn]
    simp
  rw [hb]
  have hc0 : c0 ≠ "" := identName_ok_ne_empty hn
  refine ⟨rfl, rfl, rfl, rfl, rfl, ?_⟩
  set sw2 : StarlarkWriter :=
    { out := sw.out ++ sw.buf ++ [indentf "return ctx\n"], buf := [headerString c0], currentMacro := c0, dirStack := sw.dirStack } with hsw2
  have hm2 : sw2.currentMacro ≠ "" := hc0
  have hd2 : sw2.dirStack = l ++ [p] := hd
  by_cases hb : sw2.buf.getLast? = some (pushDirString p)
  · rw [popDirectory_elide_eq sw2 l p hm2 hd2 hb]
  · rw [popDirectory_noelide_eq sw2 l p hm2 hd2 hb]

/-- Witness for C5: end a macro with the directory context `a` still open,
begin a new macro and pop `a` there. -/
theorem endMacro_preserves_dirStack_witness :
    (EndMacro (run NewStarlarkWriter [Op.beginMacro "m", Op.pushDirectory "a"])).2 =
      Except.ok () ∧
    (PopDirectory (BeginMacro
        (EndMacro (run NewStarlarkWriter
          [Op.beginMacro "m", Op.pushDirectory "a"])).1 "n").1).2 = Except.ok "a" := by
  have h := endMacro_preserves_dirStack
    (run NewStarlarkWriter [Op.beginMacro "m", Op.pushDirectory "a"])
    "n" "n" "a" [] (by decide) rfl rfl
  exact ⟨h.1, h.2.2.2.2.2⟩

/-! ## Claim C1 -/

/-- C1 counterexample: a directory context pushed in one macro and popped in
the next.  At the `PopDirectory` call the macro is open, the stack is
non-empty, and the most recent pending statement (the header of the second
macro) is not the enter statement of the popped path, yet `PopDirectory`
writes the exit statement directly to the output stream without flushing the
pending buffer, so in the final output the exit statement (position 3)
precedes the header (position 4) that was pending when it was called. -/
theorem popDirectory_exit_precedes_pending_statement :
    (run NewStarlarkWriter [Op.beginMacro "m", Op.pushDirectory "a", Op.endMacro,
        Op.beginMacro "n"]).currentMacro = "n" ∧
    (run NewStarlarkWriter [Op.beginMacro "m", Op.pushDirectory "a", Op.endMacro,
        Op.beginMacro "n"]).dirStack = ["a"] ∧
    (run NewStarlarkWriter [Op.beginMacro "m", Op.pushDirectory "a", Op.endMacro,
        Op.beginMacro "n"]).buf = ["def n(ctx):\n"] ∧
    ("def n(ctx):\n" : String) ≠ pushDirString "a" ∧
    (run NewStarlarkWriter [Op.beginMacro "m", Op.pushDirectory "a", Op.endMacro,
        Op.beginMacro "n", Op.popDirectory]).buf = ["def n(ctx):\n"] ∧
    (run NewStarlarkWriter [Op.beginMacro "m", Op.pushDirectory "a", Op.endMacro,
        Op.beginMacro "n", Op.popDirectory, Op.endMacro]).out =
      ["def m(ctx):\n", pushDirString "a", "    return ctx\n", popDirStatement,
       "def n(ctx):\n", "    return ctx\n"] := by
  refine ⟨by decide, by decide, by decide, by decide, by decide, by decide⟩

/-- C1 amended: in the non-elision branch `PopDirectory` appends the
exit-directory statement directly to the output stream without flushing the
pending buffer; the buffered statements stay pending. -/
theorem popDirectory_noelide_writes_exit_without_flush (sw : StarlarkWriter)
    (l : List String) (p : String) (hm : sw.currentMacro ≠ "")
    (hd : sw.dirStack = l ++ [p])
    (hne : ¬ sw.buf.getLast? = some (pushDirString p)) :
    PopDirectory sw =
      ({ sw with dirStack := l, out := sw.out ++ [popDirStatement] },
       Except.ok p) :=
  popDirectory_noelide_eq sw l p hm hd hne

/-- Witness for the amended C1. -/
theorem popDirectory_noelide_writes_exit_without_flush_witness :
    PopDirectory (run NewStarlarkWriter [Op.beginMacro "m", Op.pushDirectory "a",
        Op.endMacro, Op.beginMacro "n"]) =
      ({ (run NewStarlarkWriter [Op.beginMacro "m", Op.pushDirectory "a", Op.endMacro, Op.beginMacro "n"]) with
         dirStack := [],
         out := (run NewStarlarkWriter [Op.beginMacro "m", Op.pushDirectory "a", Op.endMacro, Op.beginMacro "n"]).out ++ [popDirStatement] },
       Except.ok "a") :=
  popDirectory_noelide_writes_exit_without_flush _ [] "a" (by decide) rfl (by decide)

/-! ## Claim C2 -/

/-- C2 counterexample: with an open macro and a valid command name, an
encoder failure on the (first) argument propagates verbatim and aborts the
call, but partial output for the command has already been written: beyond the
flushed pending buffer, the output stream has received the chunk
`    ctx.f(ctx`. -/
theorem writeCommand_encoder_failure_partial_output :
    WriteCommand (run NewStarlarkWriter [Op.beginMacro "m"]) "f"
        [StarlarkValue.custom (Except.error "boom")] =
      (({ out := ["def m(ctx):\n", "    ctx.f(ctx"], buf := [],
          currentMacro := "m", dirStack := [] } : StarlarkWriter),
       Except.error "boom") ∧
    (WriteCommand (run NewStarlarkWriter [Op.beginMacro "m"]) "f"
        [StarlarkValue.custom (Except.error "boom")]).1.out ≠
      (run NewStarlarkWriter [Op.beginMacro "m"]).out ++
        (run NewStarlarkWriter [Op.beginMacro "m"]).buf := by
  refine ⟨by decide, by decide⟩

/-- C2 amended: if the encoder fails on an argument, `WriteCommand` returns
exactly the encoder error and aborts -- the failing argument and the closing
parenthesis are never written -- but the pending buffer has been flushed and
the command invocation chunk plus the encodings of the arguments preceding
the failure have already been written to the output stream. -/
theorem writeCommand_encoder_failure_aborts (sw : StarlarkWriter)
    (cmd c0 : String) (pre rest : List StarlarkValue) (bad : StarlarkValue)
    (vs : List (List Char)) (e : String) (hm : sw.currentMacro ≠ "")
    (hc : identName cmd = Except.ok c0) (hpre : marshalAll pre = Except.ok vs)
    (hbad : Marshal bad = Except.error e) :
    WriteCommand sw cmd (pre ++ bad :: rest) =
      ({ sw with
         buf := [],
         out := sw.out ++ sw.buf ++ cmdStart c0 :: vs.map (fun v => ", " ++ String.mk v) },
       Except.error e) := by
  rw [WriteCommand, if_neg hm, hc]
  simp only [writeBuffered, writeString]
  rw [writeArgs_error pre _ vs bad rest e hpre hbad]
  simp [List.append_assoc]

/-- Witness for the amended C2: one successfully encoded argument precedes
the failing one. -/
theorem writeCommand_encoder_failure_aborts_witness :
    WriteCommand (run NewStarlarkWriter [Op.beginMacro "m"]) "f"
        [StarlarkValue.str "x", StarlarkValue.custom (Except.error "boom")] =
      ({ (run NewStarlarkWriter [Op.beginMacro "m"]) with
         buf := [],
         out := (run NewStarlarkWriter [Op.beginMacro "m"]).out ++ (run NewStarlarkWriter [Op.beginMacro "m"]).buf ++ cmdStart "f" :: [MarshalString "x"].map (fun v => ", " ++ String.mk v) },
       Except.error "boom") :=
  writeCommand_encoder_failure_aborts _ "f" "f" [StarlarkValue.str "x"] []
    (StarlarkValue.custom (Except.error "boom")) [MarshalString "x"] "boom"
    (by decide) rfl rfl rfl

/-! ## Claim C3: matched push/pop pairs

`MidOps` is the grammar of the operation sequences that may sit between a
`PushDirectory` and its matching `PopDirectory`: properly nested inner
push/pop pairs and successful `WriteCommand` calls (valid name, all
arguments encodable), in any interleaving. -/

inductive MidOps : List Op → Prop
  | nil : MidOps []
  | cmd {c c0 : String} {args : List StarlarkValue} {vs : List (List Char)}
      {rest : List Op} (hc : identName c = Except.ok c0)
      (hargs : marshalAll args = Except.ok vs) (h : MidOps rest) :
      MidOps (Op.writeCommand c args :: rest)
  | pair {p : String} {inner rest : List Op} (hi : MidOps inner) (hr : MidOps rest) :
      MidOps (Op.pushDirectory p :: (inner ++ Op.popDirectory :: rest))

theorem hasCmd_append (a b : List Op) : hasCmd (a ++ b) = (hasCmd a || hasCmd b) := by
  induction a with
  | nil => simp [hasCmd]
  | cons op rest ih => cases op <;> simp [hasCmd, ih]

/-- A balanced, command-free segment leaves the writer state completely
unchanged: every inner enter statement is cancelled by its matching pop. -/
theorem midOps_run_nocmd {l : List Op} (h : MidOps l) :
    ∀ sw : StarlarkWriter, sw.currentMacro ≠ "" → hasCmd l = false → run sw l = sw := by
  induction h with
  | nil => intro sw _ _; rfl
  | cmd hc hargs _ _ =>
    intro sw _ hno
    exact absurd hno (by simp [hasCmd])
  | @pair p inner rest hinner hrest ihi ihr =>
    intro sw hm hno
    have hno2 : hasCmd inner = false ∧ hasCmd rest = false := by
      simpa [hasCmd, hasCmd_append] using hno
    rw [run_cons, step_pushDirectory sw p hm, run_append]
    set sw1 : StarlarkWriter :=
      { sw with dirStack := sw.dirStack ++ [p], buf := sw.buf ++ [pushDirString p] } with hsw1
    have hm1 : sw1.currentMacro ≠ "" := hm
    rw [ihi sw1 hm1 hno2.1, run_cons,
      step_popDirectory_elide sw1 sw.dirStack p hm1 (by rw [hsw1])
        (by rw [hsw1]; exact List.getLast?_concat _)]
    have hback : ({ sw1 with dirStack := sw.dirStack, buf := sw1.buf.dropLast } : StarlarkWriter) = sw := by
      rw [hsw1]; simp [List.dropLast_concat]
    rw [hback]
    exact ihr sw hm hno2.2

/-- A balanced segment containing at least one command flushes the pending
buffer and appends some chunk list that contains a command invocation chunk;
macro name and directory stack are restored. -/
theorem midOps_run_cmd {l : List Op} (h : MidOps l) :
    ∀ sw : StarlarkWriter, sw.currentMacro ≠ "" → hasCmd l = true →
      ∃ mid c0, cmdStart c0 ∈ mid ∧
        run sw l = { sw with buf := [], out := sw.out ++ sw.buf ++ mid } := by
  induction h with
  | nil => intro sw _ hx; exact absurd hx (by simp [hasCmd])
  | @cmd c c0 args vs rest hc hargs hrest ih =>
    intro sw hm _
    rw [run_cons, step_writeCommand_ok sw c c0 args vs hm hc hargs]
    set sw1 : StarlarkWriter :=
      { sw with buf := [], out := sw.out ++ sw.buf ++ cmdChunks c0 vs } with hsw1
    have hm1 : sw1.currentMacro ≠ "" := hm
    by_cases hr : hasCmd rest = true
    · obtain ⟨midR, c1, hmem, hrun⟩ := ih sw1 hm1 hr
      refine ⟨cmdChunks c0 vs ++ midR, c1, List.mem_append_right _ hmem, ?_⟩
      rw [hrun, hsw1]
      simp [List.append_assoc]
    · have hr' : hasCmd rest = false := by simpa using hr
      rw [midOps_run_nocmd hrest sw1 hm1 hr']
      exact ⟨cmdChunks c0 vs, c0, List.mem_cons_self _ _, by rw [hsw1]⟩
  | @pair p inner rest hinner hrest ihi ihr =>
    intro sw hm hx
    rw [run_cons, step_pushDirectory sw p hm, run_append]
    set sw1 : StarlarkWriter :=
      { sw with dirStack := sw.dirStack ++ [p], buf := sw.buf ++ [pushDirString p] } with hsw1
    have hm1 : sw1.currentMacro ≠ "" := hm
    by_cases hi : hasCmd inner = true
    · obtain ⟨midI, c1, hmem, hrunI⟩ := ihi sw1 hm1 hi
      rw [hrunI, run_cons]
      set swI : StarlarkWriter :=
        { sw1 with buf := [], out := sw1.out ++ sw1.buf ++ midI } with hswI
      have hmI : swI.currentMacro ≠ "" := hm
      rw [step_popDirectory_noelide swI sw.dirStack p hmI (by rw [hswI, hsw1]) (by simp [hswI])]
      set swP : StarlarkWriter :=
        { swI with dirStack := sw.dirStack, out := swI.out ++ [popDirStatement] } with hswP
      have hmP : swP.currentMacro ≠ "" := hm
      by_cases hr : hasCmd rest = true
      · obtain ⟨midR, c2, hmem2, hrunR⟩ := ihr swP hmP hr
        refine ⟨pushDirString p :: (midI ++ popDirStatement :: midR), c2,
          List.mem_cons_of_mem _ (List.mem_append_right _ (List.mem_cons_of_mem _ hmem2)), ?_⟩
        rw [hrunR, hswP, hswI, hsw1]
        simp [List.append_assoc]
      · have hr' : hasCmd rest = false := by simpa using hr
        rw [midOps_run_nocmd hrest swP hmP hr']
        refine ⟨pushDirString p :: (midI ++ [popDirStatement]), c1,
          List.mem_cons_of_mem _ (List.mem_append_left _ hmem), ?_⟩
        rw [hswP, hswI, hsw1]
        simp [List.append_assoc]
    · have hi' : hasCmd inner = false := by simpa using hi
      have hr : hasCmd rest = true := by
        have := hx
        simp [hasCmd, hasCmd_append, hi'] at this
        exact this
      rw [midOps_run_nocmd hinner sw1 hm1 hi', run_cons,
        step_popDirectory_elide sw1 sw.dirStack p hm1 (by rw [hsw1])
          (by rw [hsw1]; exact List.getLast?_concat _)]
      have hback : ({ sw1 with dirStack := sw.dirStack, buf := sw1.buf.dropLast } : StarlarkWriter) = sw := by
        rw [hsw1]; simp [List.dropLast_concat]
      rw [hback]
      exact ihr sw hm hr

/-- C3: for a `PushDirectory(p)` / matching `PopDirectory()` pair inside an
open macro, with a balanced sequence of inner pairs and successful commands
between them: if no `WriteCommand` occurs between them the writer state is
exactly as before the pair (no enter and no exit statement for the pair ever
reaches the output); if a `WriteCommand` does occur, the output receives the
enter statement, then chunks containing the command invocation, then the
exit statement, in that order. -/
theorem push_pop_pair_elision_spec (sw : StarlarkWriter) (p : String)
    (mid : List Op) (hm : sw.currentMacro ≠ "") (hmid : MidOps mid) :
    (hasCmd mid = false →
      run sw (Op.pushDirectory p :: (mid ++ [Op.popDirectory])) = sw) ∧
    (hasCmd mid = true →
      ∃ between c0, cmdStart c0 ∈ between ∧
        run sw (Op.pushDirectory p :: (mid ++ [Op.popDirectory])) =
          { sw with
            buf := [],
            out := sw.out ++ sw.buf ++ pushDirString p :: (between ++ [popDirStatement]) }) := by
  constructor
  · intro hno
    rw [run_cons, step_pushDirectory sw p hm, run_append]
    set sw1 : StarlarkWriter :=
      { sw with dirStack := sw.dirStack ++ [p], buf := sw.buf ++ [pushDirString p] } with hsw1
    have hm1 : sw1.currentMacro ≠ "" := hm
    rw [midOps_run_nocmd hmid sw1 hm1 hno, run_cons,
      step_popDirectory_elide sw1 sw.dirStack p hm1 (by rw [hsw1])
        (by rw [hsw1]; exact List.getLast?_concat _)]
    have hback : ({ sw1 with dirStack := sw.dirStack, buf := sw1.buf.dropLast } : StarlarkWriter) = sw := by
      rw [hsw1]; simp [List.dropLast_concat]
    rw [hback]
    rfl
  · intro hyes
    rw [run_cons, step_pushDirectory sw p hm, run_append]
    set sw1 : StarlarkWriter :=
      { sw with dirStack := sw.dirStack ++ [p], buf := sw.buf ++ [pushDirString p] } with hsw1
    have hm1 : sw1.currentMacro ≠ "" := hm
    obtain ⟨midI, c0, hmem, hrunI⟩ := midOps_run_cmd hmid sw1 hm1 hyes
    rw [hrunI, run_cons]
    set swI : StarlarkWriter :=
      { sw1 with buf := [], out := sw1.out ++ sw1.buf ++ midI } with hswI
    have hmI : swI.currentMacro ≠ "" := hm
    rw [step_popDirectory_noelide swI sw.dirStack p hmI (by rw [hswI, hsw1]) (by simp [hswI])]
    refine ⟨midI, c0, hmem, ?_⟩
    rw [hswI, hsw1]
    simp only [List.append_assoc]
    rfl

/-- The writer state right after `BeginMacro("gen")` on a fresh writer. -/
def genWriter : StarlarkWriter := run NewStarlarkWriter [Op.beginMacro "gen"]

/-- Witness for C3: the command case at a concrete pair around one
`WriteCommand`. -/
theorem push_pop_pair_elision_spec_witness :
    ∃ between c0, cmdStart c0 ∈ between ∧
      run genWriter (Op.pushDirectory "lib" ::
          ([Op.writeCommand "cc_library" [StarlarkValue.str "foo"]] ++ [Op.popDirectory])) =
        { genWriter with
          buf := [],
          out := genWriter.out ++ genWriter.buf ++ pushDirString "lib" :: (between ++ [popDirStatement]) } :=
  (push_pop_pair_elision_spec genWriter "lib"
    [Op.writeCommand "cc_library" [StarlarkValue.str "foo"]]
    (by decide) (MidOps.cmd rfl rfl MidOps.nil)).2 rfl

/-! ## Claim C4: the pending buffer as a suffix of the directory stack

`GhostWriter` instruments the writer state with one ghost counter: `fresh`
counts how many of the top directory-stack entries were pushed since the
current macro was begun.  The ghost step mirrors `step` exactly (see
`gstep_sw`); the counter is reset by a successful `BeginMacro` or `EndMacro`,
incremented by a successful push and decremented (at zero: a leftover entry
from an earlier macro is popped, the counter stays zero) by a successful
pop.  The premise of C4 -- every entry currently on the stack was pushed
during the currently open macro -- is exactly `fresh = dirStack.length`. -/

structure GhostWriter where
  sw : StarlarkWriter
  fresh : Nat
  deriving Repr

def ghostInit : GhostWriter :=
  { sw := NewStarlarkWriter, fresh := 0 }

def gstep (g : GhostWriter) (op : Op) : GhostWriter :=
  match op with
  | Op.beginMacro n =>
    match BeginMacro g.sw n with
    | (sw, Except.ok _) => { sw := sw, fresh := 0 }
    | (sw, Except.error _) => { sw := sw, fresh := g.fresh }
  | Op.endMacro =>
    match EndMacro g.sw with
    | (sw, Except.ok _) => { sw := sw, fresh := 0 }
    | (sw, Except.error _) => { sw := sw, fresh := g.fresh }
  | Op.pushDirectory p =>
    match PushDirectory g.sw p with
    | (sw, Except.ok _) => { sw := sw, fresh := g.fresh + 1 }
    | (sw, Except.error _) => { sw := sw, fresh := g.fresh }
  | Op.popDirectory =>
    match PopDirectory g.sw with
    | (sw, Except.ok _) => { sw := sw, fresh := g.fresh - 1 }
    | (sw, Except.error _) => { sw := sw, fresh := g.fresh }
  | Op.writeCommand c args => { sw := (WriteCommand g.sw c args).1, fresh := g.fresh }

inductive GReachable : GhostWriter → Prop
  | init : GReachable ghostInit
  | step (g : GhostWriter) (op : Op) (h : GReachable g) : GReachable (gstep g op)

/-- The ghost counter is pure instrumentation: the writer component of the
ghost step is the ordinary step. -/
theorem gstep_sw (g : GhostWriter) (op : Op) : (gstep g op).sw = step g.sw op := by
  cases op with
  | beginMacro n =>
    cases hb : BeginMacro g.sw n with
    | mk sw r => cases r <;> simp [gstep, step, hb]
  | endMacro =>
    cases hb : EndMacro g.sw with
    | mk sw r => cases r <;> simp [gstep, step, hb]
  | pushDirectory p =>
    cases hb : PushDirectory g.sw p with
    | mk sw r => cases r <;> simp [gstep, step, hb]
  | popDirectory =>
    cases hb : PopDirectory g.sw with
    | mk sw r => cases r <;> simp [gstep, step, hb]
  | writeCommand c args => rfl

theorem append_singleton_inj {α : Type} {l1 l2 : List α} {a b : α}
    (h : l1 ++ [a] = l2 ++ [b]) : l1 = l2 ∧ a = b := by
  constructor
  · have h2 := congrArg List.dropLast h
    simpa [List.dropLast_concat] using h2
  · have h2 := congrArg List.getLast? h
    simp [List.getLast?_concat] at h2
    exact h2

/-- The inductive state invariant behind C4.  In a writing state the pending
buffer is either the enter statements of at most `fresh` top stack entries
(after at least one flush since `BeginMacro`), or the macro header followed
by the enter statements of exactly the `fresh` top stack entries (before the
first flush). -/
def GInv (g : GhostWriter) : Prop :=
  g.fresh ≤ g.sw.dirStack.length ∧
  (g.sw.currentMacro = "" → g.sw.buf = []) ∧
  (g.sw.currentMacro ≠ "" →
    (∃ pre tk, g.sw.dirStack = pre ++ tk ∧ tk.length ≤ g.fresh ∧
       g.sw.buf = tk.map pushDirString) ∨
    (∃ pre tk, g.sw.dirStack = pre ++ tk ∧ tk.length = g.fresh ∧
       g.sw.buf = headerString g.sw.currentMacro :: tk.map pushDirString))

theorem ginv_gstep {g : GhostWriter} (h : GInv g) (op : Op) : GInv (gstep g op) := by
  obtain ⟨h1, h2, h3⟩ := h
  cases op with
  | beginMacro n =>
    by_cases hm : g.sw.currentMacro = ""
    · cases hn : identName n with
      | error e =>
        have hB : BeginMacro g.sw n = (g.sw, Except.error e) := by
          rw [BeginMacro, if_neg (by simp [hm]), hn]
        simp only [gstep, hB]
        exact ⟨h1, h2, h3⟩
      | ok n0 =>
        have hB : BeginMacro g.sw n =
            ({ g.sw with buf := g.sw.buf ++ [headerString n0], currentMacro := n0 },
             Except.ok ()) := by
          rw [BeginMacro, if_neg (by simp [hm]), hn]
        simp only [gstep, hB]
        have hbuf : g.sw.buf = [] := h2 hm
        refine ⟨Nat.zero_le _, ?_, ?_⟩
        · intro hh
          exact absurd hh (identName_ok_ne_empty hn)
        · intro _
          right
          exact ⟨g.sw.dirStack, [], by simp, by simp, by simp [hbuf]⟩
    · have hB : BeginMacro g.sw n = (g.sw, Except.error "nested macros are not allowed") := by
        rw [BeginMacro, if_pos hm]
      simp only [gstep, hB]
      exact ⟨h1, h2, h3⟩
  | endMacro =>
    by_cases hm : g.sw.currentMacro = ""
    · have hE : EndMacro g.sw = (g.sw, Except.error "no current macro") := by
        rw [EndMacro, if_pos hm]
      simp only [gstep, hE]
      exact ⟨h1, h2, h3⟩
    · have hE : EndMacro g.sw =
          ({ out := g.sw.out ++ g.sw.buf ++ [indentf "return ctx\n"], buf := [],
             currentMacro := "", dirStack := g.sw.dirStack }, Except.ok ()) := by
        rw [EndMacro, if_neg hm]
        simp [writeBuffered, writeString, List.append_assoc]
      simp only [gstep, hE]
      exact ⟨Nat.zero_le _, fun _ => rfl, fun hmm => absurd rfl hmm⟩
  | pushDirectory p =>
    by_cases hm : g.sw.currentMacro = ""
    · have hP : PushDirectory g.sw p = (g.sw, Except.error "no current macro") := by
        rw [PushDirectory, if_pos hm]
      simp only [gstep, hP]
      exact ⟨h1, h2, h3⟩
    · have hP : PushDirectory g.sw p =
          ({ g.sw with dirStack := g.sw.dirStack ++ [p], buf := g.sw.buf ++ [pushDirString p] }, Except.ok ()) := by
        rw [PushDirectory, if_neg hm]
      simp only [gstep, hP]
      refine ⟨?_, fun hmm => absurd hmm hm, ?_⟩
      · simp only [List.length_append, List.length_cons, List.length_nil]
        omega
      · intro _
        rcases h3 hm with ⟨pre, tk, hd, hlen, hbuf⟩ | ⟨pre, tk, hd, hlen, hbuf⟩
        · left
          refine ⟨pre, tk ++ [p], by rw [hd, List.append_assoc], ?_, ?_⟩
          · simp only [List.length_append, List.length_cons, List.length_nil]
            omega
          · rw [hbuf, List.map_append]
            rfl
        · right
          refine ⟨pre, tk ++ [p], by rw [hd, List.append_assoc], ?_, ?_⟩
          · simp only [List.length_append, List.length_cons, List.length_nil]
            omega
          · rw [hbuf, List.map_append]
            rfl
  | popDirectory =>
    by_cases hm : g.sw.currentMacro = ""
    · have hP : PopDirectory g.sw = (g.sw, Except.error "no current macro") := by
        rw [PopDirectory, if_pos hm]
      simp only [gstep, hP]
      exact ⟨h1, h2, h3⟩
    · rcases List.eq_nil_or_concat' g.sw.dirStack with hd0 | ⟨d0, q, hd0⟩
      · have hP : PopDirectory g.sw = (g.sw, Except.error "no current directory") := by
          rw [PopDirectory, if_neg hm, hd0]
          rfl
        simp only [gstep, hP]
        exact ⟨h1, h2, h3⟩
      · have hlend : g.sw.dirStack.length = d0.length + 1 := by
          rw [hd0]
          simp
        by_cases hb : g.sw.buf.getLast? = some (pushDirString q)
        · have hP := popDirectory_elide_eq g.sw d0 q hm hd0 hb
          simp only [gstep, hP]
          refine ⟨by show g.fresh - 1 ≤ d0.length; omega, fun hmm => absurd hmm hm, ?_⟩
          intro _
          rcases h3 hm with ⟨pre, tk, hd, hlen, hbuf⟩ | ⟨pre, tk, hd, hlen, hbuf⟩
          · rcases List.eq_nil_or_concat' tk with rfl | ⟨tk0, r, rfl⟩
            · rw [hbuf] at hb
              simp at hb
            · have hqr : d0 = pre ++ tk0 ∧ q = r :=
                append_singleton_inj (by rw [← hd0, hd, List.append_assoc])
              left
              refine ⟨pre, tk0, hqr.1, ?_, ?_⟩
              · show tk0.length ≤ g.fresh - 1
                simp only [List.length_append, List.length_cons, List.length_nil] at hlen
                omega
              · rw [hbuf, List.map_append]
                exact List.dropLast_concat
          · rcases List.eq_nil_or_concat' tk with rfl | ⟨tk0, r, rfl⟩
            · rw [hbuf] at hb
              simp at hb
              exact absurd hb (headerString_ne_pushDirString _ _)
            · have hqr : d0 = pre ++ tk0 ∧ q = r :=
                append_singleton_inj (by rw [← hd0, hd, List.append_assoc])
              right
              refine ⟨pre, tk0, hqr.1, ?_, ?_⟩
              · show tk0.length = g.fresh - 1
                simp only [List.length_append, List.length_cons, List.length_nil] at hlen
                omega
              · rw [hbuf, List.map_append]
                show ((headerString g.sw.currentMacro :: List.map pushDirString tk0) ++
                  [pushDirString r]).dropLast = _
                exact List.dropLast_concat
        · have hP := popDirectory_noelide_eq g.sw d0 q hm hd0 hb
          simp only [gstep, hP]
          refine ⟨by show g.fresh - 1 ≤ d0.length; omega, fun hmm => absurd hmm hm, ?_⟩
          intro _
          rcases h3 hm with ⟨pre, tk, hd, hlen, hbuf⟩ | ⟨pre, tk, hd, hlen, hbuf⟩
          · rcases List.eq_nil_or_concat' tk with rfl | ⟨tk0, r, rfl⟩
            · left
              exact ⟨d0, [], by simp, by simp, by simpa using hbuf⟩
            · exfalso
              have hqr : d0 = pre ++ tk0 ∧ q = r :=
                append_singleton_inj (by rw [← hd0, hd, List.append_assoc])
              apply hb
              rw [hbuf, List.map_append, hqr.2]
              exact List.getLast?_concat _
          · rcases List.eq_nil_or_concat' tk with rfl | ⟨tk0, r, rfl⟩
            · right
              refine ⟨d0, [], by simp, ?_, by simpa using hbuf⟩
              show ([] : List String).length = g.fresh - 1
              simp only [List.length_nil] at hlen ⊢
              omega
            · exfalso
              have hqr : d0 = pre ++ tk0 ∧ q = r :=
                append_singleton_inj (by rw [← hd0, hd, List.append_assoc])
              apply hb
              rw [hbuf, List.map_append, hqr.2]
              show ((headerString g.sw.currentMacro :: List.map pushDirString tk0) ++
                [pushDirString r]).getLast? = _
              exact List.getLast?_concat _
  | writeCommand c args =>
    by_cases hm : g.sw.currentMacro = ""
    · have hW : WriteCommand g.sw c args = (g.sw, Except.error "no current macro") := by
        rw [WriteCommand, if_pos hm]
      simp only [gstep, hW]
      exact ⟨h1, h2, h3⟩
    · cases hn : identName c with
      | error e =>
        have hW : WriteCommand g.sw c args = (g.sw, Except.error e) := by
          rw [WriteCommand, if_neg hm, hn]
        simp only [gstep, hW]
        exact ⟨h1, h2, h3⟩
      | ok c0 =>
        have hf := step_writeCommand_fields g.sw c c0 args hm hn
        rw [show step g.sw (Op.writeCommand c args) = (gstep g (Op.writeCommand c args)).sw from
          (gstep_sw g (Op.writeCommand c args)).symm] at hf
        refine ⟨?_, fun hmm => absurd (hf.2.2 ▸ hmm) hm, ?_⟩
        · have hg : (gstep g (Op.writeCommand c args)).fresh = g.fresh := rfl
          rw [hg, hf.2.1]
          exact h1
        · intro _
          left
          exact ⟨(gstep g (Op.writeCommand c args)).sw.dirStack, [], by simp,
            Nat.zero_le _, by simpa using hf.1⟩

theorem greachable_ginv {g : GhostWriter} (h : GReachable g) : GInv g := by
  induction h with
  | init => exact ⟨Nat.le_refl 0, fun _ => rfl, fun hm => absurd rfl hm⟩
  | step g op _ ih => exact ginv_gstep ih op

/-- C4: in every reachable state in which all directory-stack entries were
pushed during the currently open macro (ghost counter equal to the stack
height), the pending buffer is -- apart from a possible leading macro header
-- exactly the enter statements of a suffix of the directory stack, in
order, at the buffer tail; consequently, whenever `PopDirectory` would take
its non-elision branch in such a state (top of stack `p`, last buffered
statement not the enter statement for `p`), the pending buffer is empty. -/
theorem pending_buffer_suffix_invariant (g : GhostWriter) (hg : GReachable g)
    (hall : g.fresh = g.sw.dirStack.length) (hm : g.sw.currentMacro ≠ "") :
    (∃ pre tk, g.sw.dirStack = pre ++ tk ∧
      (g.sw.buf = tk.map pushDirString ∨
       g.sw.buf = headerString g.sw.currentMacro :: tk.map pushDirString)) ∧
    (∀ p, g.sw.dirStack.getLast? = some p →
      ¬ g.sw.buf.getLast? = some (pushDirString p) → g.sw.buf = []) := by
  obtain ⟨h1, h2, h3⟩ := greachable_ginv hg
  constructor
  · rcases h3 hm with ⟨pre, tk, hd, hlen, hbuf⟩ | ⟨pre, tk, hd, hlen, hbuf⟩
    · exact ⟨pre, tk, hd, Or.inl hbuf⟩
    · exact ⟨pre, tk, hd, Or.inr hbuf⟩
  · intro p hp hnb
    rcases h3 hm with ⟨pre, tk, hd, hlen, hbuf⟩ | ⟨pre, tk, hd, hlen, hbuf⟩
    · rcases List.eq_nil_or_concat' tk with rfl | ⟨tk0, r, rfl⟩
      · simpa using hbuf
      · exfalso
        have hpr : p = r := by
          rw [hd, ← List.append_assoc, List.getLast?_concat] at hp
          exact (Option.some.inj hp).symm
        apply hnb
        rw [hbuf, List.map_append, hpr]
        exact List.getLast?_concat _
    · rcases List.eq_nil_or_concat' tk with rfl | ⟨tk0, r, rfl⟩
      · exfalso
        simp only [List.length_nil] at hlen
        have hlen0 : g.sw.dirStack.length = 0 := by omega
        have hnil : g.sw.dirStack = [] := List.eq_nil_of_length_eq_zero hlen0
        rw [hnil] at hp
        simp at hp
      · exfalso
        have hpr : p = r := by
          rw [hd, ← List.append_assoc, List.getLast?_concat] at hp
          exact (Option.some.inj hp).symm
        apply hnb
        rw [hbuf, List.map_append, hpr]
        show ((headerString g.sw.currentMacro :: List.map pushDirString tk0) ++
          [pushDirString r]).getLast? = _
        exact List.getLast?_concat _

/-- A concrete reachable ghost state: `BeginMacro("m"); PushDirectory("a")`
on a fresh writer; the one stack entry was pushed in the open macro. -/
def c4Example : GhostWriter :=
  gstep (gstep ghostInit (Op.beginMacro "m")) (Op.pushDirectory "a")

/-- Witness for C4 at the concrete reachable state `c4Example`. -/
theorem pending_buffer_suffix_invariant_witness :
    (∃ pre tk, c4Example.sw.dirStack = pre ++ tk ∧
      (c4Example.sw.buf = tk.map pushDirString ∨
       c4Example.sw.buf = headerString c4Example.sw.currentMacro :: tk.map pushDirString)) ∧
    (∀ p, c4Example.sw.dirStack.getLast? = some p →
      ¬ c4Example.sw.buf.getLast? = some (pushDirString p) → c4Example.sw.buf = []) :=
  pending_buffer_suffix_invariant c4Example
    (GReachable.step _ (Op.pushDirectory "a")
      (GReachable.step _ (Op.beginMacro "m") GReachable.init))
    (by decide) (by decide)

end Writer
